import Mathlib

/-!
# Verification of the `erased-type-arena` crate

A shallow embedding of `src/lib.rs` and `src/utils/linked_list.rs`:
the lock-free linked list (modelled with its sequential, uncontended
semantics), the type-erased storage record `ArenaBox`, the `Arena`, and
the checked handle wrappers `AllocMut` / `AllocRef`.

Machine addresses are `Nat` (0 is the null pointer), the pool of
`Arc<Cell<bool>>` liveness flags is a `List Bool` indexed by creation
order, and the side effects of the allocator, of `drop_in_place` and of
`Cell::set` are recorded as explicit event traces.
-/

set_option maxHeartbeats 1000000

namespace ErasedTypeArena

/-- The memory orderings of `core::sync::atomic::Ordering` that appear in
`src/utils/linked_list.rs`. -/
inductive AtomicOrdering where
  | relaxed
  | acquire
  | release
  | acqRel
  | seqCst
deriving DecidableEq, Repr

/-- `alloc::alloc::Layout`: size and alignment of an allocated type. -/
structure Layout where
  size : Nat
  align : Nat
deriving DecidableEq, Repr

/-- `NonNull::dangling()` for a layout: the non-null, non-dereferenceable
placeholder address used for zero-sized allocations (Rust uses the
alignment value as the address). -/
def danglingAddr (l : Layout) : Nat :=
  l.align

/-- Reading the `Arc<Cell<bool>>` liveness flag with id `i` out of the pool
of all flag cells created so far (`Cell::get`). An id beyond the pool is
never produced by the code; it reads as `false`. -/
def flagAt : List Bool → Nat → Bool
  | [], _ => false
  | b :: _, 0 => b
  | _ :: rest, i + 1 => flagAt rest i

/-- `Cell::set(true)` on the flag cell with id `i` (`lib.rs:476`), the only
write to a liveness flag anywhere in the crate. -/
def setFlagTrue : List Bool → Nat → List Bool
  | [], _ => []
  | _ :: rest, 0 => true :: rest
  | b :: rest, i + 1 => b :: setFlagTrue rest i

/-- One `ConcurrentLinkedListNode`: the stored value and the address of the
successor node loaded/stored through the atomic `next` link (`0` = null). -/
structure ListNode (α : Type u) where
  value : α
  next : Nat
deriving DecidableEq, Repr

/-- The state of a `ConcurrentLinkedList`: every node allocated for it so
far (the node with address `a ≠ 0` lives at `heap.get? (a - 1)`; addresses
are handed out consecutively from 1) and the atomic `head` pointer. -/
structure LLState (α : Type u) where
  heap : List (ListNode α)
  head : Nat
deriving DecidableEq, Repr

/-- `ConcurrentLinkedList::new`: null head, nothing allocated. -/
def LLState.empty : LLState α := ⟨[], 0⟩

/-- `ConcurrentLinkedList::push_front` with its sequential (uncontended)
semantics: the node is fully constructed with its `next` link holding the
current head snapshot, and only then does the successful compare-exchange
publish the node's address as the new head. -/
def pushFront (s : LLState α) (v : α) : LLState α :=
  { heap := s.heap ++ [⟨v, s.head⟩], head := s.heap.length + 1 }

/-- Sequential insertion of a list of values, first element first. -/
def pushAll (s : LLState α) (vs : List α) : LLState α :=
  vs.foldl pushFront s

/-- One iteration of the teardown loop in `Drop for ConcurrentLinkedList`
(`linked_list.rs:46`): load `head`; if null, break; otherwise load the
head node's `next`, store it as the new head and destroy the taken node.
Returns the destroyed node's address and value. -/
def teardownStep (s : LLState α) : Option ((Nat × α) × LLState α) :=
  if s.head = 0 then none
  else
    match s.heap.get? (s.head - 1) with
    | none => none
    | some node => some ((s.head, node.value), { heap := s.heap, head := node.next })

/-- The teardown loop, driven by explicit fuel. -/
def teardownAux : Nat → LLState α → List (Nat × α) × LLState α
  | 0, s => ([], s)
  | fuel + 1, s =>
    match teardownStep s with
    | none => ([], s)
    | some (d, s') =>
      let r := teardownAux fuel s'
      (d :: r.1, r.2)

/-- `Drop for ConcurrentLinkedList`: run the teardown loop to completion.
Fuel `s.head` suffices for every state built by `push_front`, because each
node's successor address is strictly below its own address, so the head
strictly decreases at every iteration. -/
def teardown (s : LLState α) : List (Nat × α) × LLState α :=
  teardownAux s.head s

/-- The heap shape produced by sequential `push_front` calls: the node at
index `i` (address `i + 1`) has `next = i` (address of the previously
published head). -/
def chainNext (heap : List (ListNode α)) : Prop :=
  ∀ i n, heap.get? i = some n → n.next = i

/-- Outcome of an operation that may halt via the `assert!` in
`ensure_not_dropped`. -/
inductive AccessResult (α : Type u) where
  | panicked (msg : String)
  | ok (v : α)
deriving DecidableEq, Repr

/-- The `assert!` message of `ensure_not_dropped` (`lib.rs:236`). -/
def panicMsg : String :=
  "The allocated object requesting for use has been dropped"

/-- Side effects recorded while running the embedded code: a call to the
global allocator (`alloc`), the in-place destruction of a stored value
(`drop_in_place`), a memory release (`dealloc`), and a write to a
liveness flag cell (`Cell::set(true)`). -/
inductive MemEvent (α : Type u) where
  | allocMem (addr : Nat) (layout : Layout)
  | dropValue (v : α)
  | deallocMem (addr : Nat) (layout : Layout)
  | setFlag (flagId : Nat)
deriving DecidableEq, Repr

/-- `ArenaBox` (`lib.rs:419`): the address of the allocated value, its
layout, and the id of the shared `Arc<Cell<bool>>` dropped flag. The value
moved into the allocation is carried alongside so that the events of the
captured dropper closure can name it; the behavior of that closure is
`ArenaBox.dropperEvents`. -/
structure ArenaBox (α : Type u) where
  object : Nat
  object_layout : Layout
  value : α
  flagId : Nat
deriving DecidableEq, Repr

/-- `Arena` (`lib.rs:131`) together with the ambient world state the code
relies on: the pool of flag cells created by `Arc::new(Cell::new(false))`
and the global allocator's fresh-address counter (addresses start at 1;
0 is the null pointer). -/
structure Arena (α : Type u) where
  flags : List Bool
  objects : LLState (ArenaBox α)
  nextAddr : Nat
deriving DecidableEq, Repr

/-- `Arena::new` (`lib.rs:137`): an empty list, no flags created yet. -/
def Arena.new : Arena α :=
  ⟨[], LLState.empty, 1⟩

/-- `ArenaBox::new` (`lib.rs:436`): a zero-sized layout gets
`NonNull::dangling()` and no allocator call; otherwise memory of exactly
the layout is reserved and the value moved in. A fresh liveness flag
initialized to `false` is created either way. Returns the box, the updated
world state, and the allocator events performed. -/
def ArenaBox.new (s : Arena α) (v : α) (l : Layout) :
    ArenaBox α × Arena α × List (MemEvent α) :=
  if l.size = 0 then
    (⟨danglingAddr l, l, v, s.flags.length⟩,
     { s with flags := s.flags ++ [false] },
     [])
  else
    (⟨s.nextAddr, l, v, s.flags.length⟩,
     { s with flags := s.flags ++ [false], nextAddr := s.nextAddr + 1 },
     [MemEvent.allocMem s.nextAddr l])

/-- `AllocMut` (`lib.rs:180`): the referenced value and the id of the
cloned `Arc<Cell<bool>>` liveness flag. -/
structure AllocMut (α : Type u) where
  value : α
  droppedFlag : Nat
deriving DecidableEq, Repr

/-- `AllocRef` (`lib.rs:306`): the immutable counterpart of `AllocMut`. -/
structure AllocRef (α : Type u) where
  value : α
  droppedFlag : Nat
deriving DecidableEq, Repr

/-- `Arena::alloc` (`lib.rs:148`): build the `ArenaBox`, clone its flag,
push the box onto the concurrent list and return the checked wrapper. -/
def Arena.alloc (s : Arena α) (v : α) (l : Layout) :
    AllocMut α × Arena α × List (MemEvent α) :=
  let r := ArenaBox.new s v l
  (⟨r.1.value, r.1.flagId⟩,
   { r.2.1 with objects := pushFront r.2.1.objects r.1 },
   r.2.2)

/-- `AllocMut::dropped` (`lib.rs:214`): read the shared flag cell. A pure
read: it touches no state and is total (it cannot panic). -/
def AllocMut.dropped (flags : List Bool) (m : AllocMut α) : Bool :=
  flagAt flags m.droppedFlag

/-- `AllocMut::ensure_not_dropped` (`lib.rs:235`): `assert!(!self.dropped())`. -/
def AllocMut.ensure_not_dropped (flags : List Bool) (m : AllocMut α) :
    AccessResult Unit :=
  if m.dropped flags then AccessResult.panicked panicMsg else AccessResult.ok ()

/-- `AllocMut::get` (`lib.rs:189`): check the flag, then return the value. -/
def AllocMut.get (flags : List Bool) (m : AllocMut α) : AccessResult α :=
  match m.ensure_not_dropped flags with
  | AccessResult.panicked msg => AccessResult.panicked msg
  | AccessResult.ok _ => AccessResult.ok m.value

/-- `AllocMut::get_mut` (`lib.rs:197`): check the flag, then return the
mutable reference. -/
def AllocMut.get_mut (flags : List Bool) (m : AllocMut α) : AccessResult α :=
  match m.ensure_not_dropped flags with
  | AccessResult.panicked msg => AccessResult.panicked msg
  | AccessResult.ok _ => AccessResult.ok m.value

/-- `AllocMut::get_unchecked` (`lib.rs:203`): no check. -/
def AllocMut.get_unchecked (m : AllocMut α) : α :=
  m.value

/-- `AllocMut::leak` (`lib.rs:221`): check the flag, then return the value. -/
def AllocMut.leak (flags : List Bool) (m : AllocMut α) : AccessResult α :=
  match m.ensure_not_dropped flags with
  | AccessResult.panicked msg => AccessResult.panicked msg
  | AccessResult.ok _ => AccessResult.ok m.value

/-- `AllocMut::leak_unchecked` (`lib.rs:228`): no check. -/
def AllocMut.leak_unchecked (m : AllocMut α) : α :=
  m.value

/-- `Deref for AllocMut` (`lib.rs:276`): funnels through `get`. -/
def AllocMut.deref (flags : List Bool) (m : AllocMut α) : AccessResult α :=
  m.get flags

/-- `DerefMut for AllocMut` (`lib.rs:284`): funnels through `get_mut`. -/
def AllocMut.deref_mut (flags : List Bool) (m : AllocMut α) : AccessResult α :=
  m.get_mut flags

/-- `AsRef for AllocMut` (`lib.rs:243`): funnels through `get`. -/
def AllocMut.as_ref (flags : List Bool) (m : AllocMut α) : AccessResult α :=
  m.get flags

/-- `AsMut for AllocMut` (`lib.rs:249`): funnels through `get_mut`. -/
def AllocMut.as_mut (flags : List Bool) (m : AllocMut α) : AccessResult α :=
  m.get_mut flags

/-- `Borrow for AllocMut` (`lib.rs:255`): funnels through `get`. -/
def AllocMut.borrow (flags : List Bool) (m : AllocMut α) : AccessResult α :=
  m.get flags

/-- `BorrowMut for AllocMut` (`lib.rs:261`): funnels through `get_mut`. -/
def AllocMut.borrow_mut (flags : List Bool) (m : AllocMut α) : AccessResult α :=
  m.get_mut flags

/-- `Debug for AllocMut` (`lib.rs:267`): formats `self.get()` — checked. -/
def AllocMut.fmtDebug (flags : List Bool) (m : AllocMut α) : AccessResult α :=
  m.get flags

/-- `Display for AllocMut` (`lib.rs:290`): formats `self.get()` — checked. -/
def AllocMut.fmtDisplay (flags : List Bool) (m : AllocMut α) : AccessResult α :=
  m.get flags

/-- `AllocRef::dropped` (`lib.rs:329`): read the shared flag cell. -/
def AllocRef.dropped (flags : List Bool) (r : AllocRef α) : Bool :=
  flagAt flags r.droppedFlag

/-- `AllocRef::ensure_not_dropped` (`lib.rs:350`). -/
def AllocRef.ensure_not_dropped (flags : List Bool) (r : AllocRef α) :
    AccessResult Unit :=
  if r.dropped flags then AccessResult.panicked panicMsg else AccessResult.ok ()

/-- `AllocRef::get` (`lib.rs:318`): check the flag, then return the value. -/
def AllocRef.get (flags : List Bool) (r : AllocRef α) : AccessResult α :=
  match r.ensure_not_dropped flags with
  | AccessResult.panicked msg => AccessResult.panicked msg
  | AccessResult.ok _ => AccessResult.ok r.value

/-- `AllocRef::get_unchecked` (`lib.rs:324`): no check. -/
def AllocRef.get_unchecked (r : AllocRef α) : α :=
  r.value

/-- `AllocRef::leak` (`lib.rs:336`): check the flag, then return the value. -/
def AllocRef.leak (flags : List Bool) (r : AllocRef α) : AccessResult α :=
  match r.ensure_not_dropped flags with
  | AccessResult.panicked msg => AccessResult.panicked msg
  | AccessResult.ok _ => AccessResult.ok r.value

/-- `AllocRef::leak_unchecked` (`lib.rs:343`): no check. -/
def AllocRef.leak_unchecked (r : AllocRef α) : α :=
  r.value

/-- `Deref for AllocRef` (`lib.rs:385`): funnels through `get`. -/
def AllocRef.deref (flags : List Bool) (r : AllocRef α) : AccessResult α :=
  r.get flags

/-- `AsRef for AllocRef` (`lib.rs:358`): funnels through `get`. -/
def AllocRef.as_ref (flags : List Bool) (r : AllocRef α) : AccessResult α :=
  r.get flags

/-- `Borrow for AllocRef` (`lib.rs:367`): funnels through `get`. -/
def AllocRef.borrow (flags : List Bool) (r : AllocRef α) : AccessResult α :=
  r.get flags

/-- `Debug for AllocRef` (`lib.rs:376`): formats `self.value` directly,
with NO liveness check. -/
def AllocRef.fmtDebug (_flags : List Bool) (r : AllocRef α) : AccessResult α :=
  AccessResult.ok r.value

/-- `Display for AllocRef` (`lib.rs:393`): formats `self.value` directly,
with NO liveness check. -/
def AllocRef.fmtDisplay (_flags : List Bool) (r : AllocRef α) : AccessResult α :=
  AccessResult.ok r.value

/-- `From<AllocMut> for AllocRef` (`lib.rs:402`): moves the value reference
and the `Arc` clone of the same flag cell into the immutable wrapper. -/
def AllocRef.fromMut (m : AllocMut α) : AllocRef α :=
  ⟨m.value, m.droppedFlag⟩

/-- `#[derive(Clone)]` on `AllocRef` (`lib.rs:305`): cloning copies the
reference and clones the `Arc`, i.e. yields a wrapper over the same value
and the same flag cell. -/
def AllocRef.clone (r : AllocRef α) : AllocRef α :=
  r

/-- `ArenaBox::mark_as_dropped` (`lib.rs:475`): set the shared flag. -/
def ArenaBox.mark_as_dropped (flags : List Bool) (b : ArenaBox α) : List Bool :=
  setFlagTrue flags b.flagId

/-- The captured dropper closure (`lib.rs:455`): `drop_in_place` the value,
then `dealloc` — but only if the layout size is non-zero. -/
def ArenaBox.dropperEvents (b : ArenaBox α) : List (MemEvent α) :=
  MemEvent.dropValue b.value ::
    (if b.object_layout.size ≠ 0 then
      [MemEvent.deallocMem b.object b.object_layout]
    else [])

/-- `Drop for ArenaBox` (`lib.rs:480`): first `mark_as_dropped`, then invoke
the dropper with the stored address and layout. -/
def ArenaBox.dropRun (flags : List Bool) (b : ArenaBox α) :
    List Bool × List (MemEvent α) :=
  (b.mark_as_dropped flags, MemEvent.setFlag b.flagId :: b.dropperEvents)

/-- Destroy a list of `ArenaBox`es in order, threading the flag pool and
concatenating the emitted events. -/
def runDrops (flags : List Bool) : List (ArenaBox α) → List Bool × List (MemEvent α)
  | [] => (flags, [])
  | b :: bs =>
    let r := b.dropRun flags
    let rr := runDrops r.1 bs
    (rr.1, r.2 ++ rr.2)

/-- The records of an arena in the order its teardown destroys them (the
order the list drop loop takes nodes off the head chain). -/
def Arena.teardownBoxes (s : Arena α) : List (ArenaBox α) :=
  (teardown s.objects).1.map Prod.snd

/-- `Drop for Arena`: drop the `ConcurrentLinkedList`, destroying every
node and hence every embedded `ArenaBox` in head-chain order. Returns the
final flag pool and the event trace. -/
def Arena.dropRun (s : Arena α) : List Bool × List (MemEvent α) :=
  runDrops s.flags s.teardownBoxes

/-- The flag pool as seen by the dropper of the `k`-th record destroyed
during teardown: the flags after the first `k` records were fully dropped
and record `k` itself was marked (`mark_as_dropped` runs before the
dropper). -/
def flagsAtDropper (flags : List Bool) (boxes : List (ArenaBox α)) (k : Nat) :
    List Bool :=
  (boxes.take (k + 1)).foldl (fun fs b => b.mark_as_dropped fs) flags

/-- A sequence of `Arena::alloc` calls on one thread, returning the final
state and the handles in allocation order. Each call receives the value
and the `Layout::new::<T>()` of its type. -/
def allocAll (s : Arena α) : List (α × Layout) → Arena α × List (AllocMut α)
  | [] => (s, [])
  | (v, l) :: rest =>
    let r := Arena.alloc s v l
    let rr := allocAll r.2.1 rest
    (rr.1, r.1 :: rr.2)

/-- The boxes that a sequential run of `Arena::alloc` builds, given the
first fresh flag id and the allocator's next fresh address. -/
def mkBoxes (flag0 addr0 : Nat) : List (α × Layout) → List (ArenaBox α)
  | [] => []
  | (v, l) :: rest =>
    ⟨if l.size = 0 then danglingAddr l else addr0, l, v, flag0⟩ ::
      mkBoxes (flag0 + 1) (if l.size = 0 then addr0 else addr0 + 1) rest

/-- Projections of the event trace. -/
def toDropValue : MemEvent α → Option α
  | MemEvent.dropValue v => some v
  | _ => none

def isDropValueEv : MemEvent α → Bool :=
  fun e => (toDropValue e).isSome

def isDeallocEv : MemEvent α → Bool
  | MemEvent.deallocMem _ _ => true
  | _ => false

def isSetFlagFor (k : Nat) : MemEvent α → Bool
  | MemEvent.setFlag j => j == k
  | _ => false

/-- The transitions any operation of the crate applies to the pool of
liveness flags: `Arc::new(Cell::new(false))` inside `ArenaBox::new`
(`lib.rs:470`) creates one fresh cell holding `false`;
`ArenaBox::mark_as_dropped` (`lib.rs:476`) sets one cell; every other
operation (`get`, `get_mut`, `dropped`, `leak`, the conversions, cloning
or dropping a handle) only reads the pool. -/
inductive FlagStep : List Bool → List Bool → Prop where
  | allocStep (fs : List Bool) : FlagStep fs (fs ++ [false])
  | markStep (fs : List Bool) (i : Nat) : FlagStep fs (setFlagTrue fs i)
  | readStep (fs : List Bool) : FlagStep fs fs

/-- The atomic operations executed, in program order, by one successful
iteration of `ConcurrentLinkedList::push_front` (`linked_list.rs:18`),
with the `Ordering` each of them is given in the source. -/
inductive AtomicOp where
  | loadHead (ord : AtomicOrdering)
  | storeNext (ord : AtomicOrdering)
  | casHead (success failure : AtomicOrdering)
  | loadNext (ord : AtomicOrdering)
  | storeHead (ord : AtomicOrdering)
deriving DecidableEq, Repr

def pushFrontAtomicOps : List AtomicOp :=
  [AtomicOp.loadHead AtomicOrdering.relaxed,
   AtomicOp.storeNext AtomicOrdering.relaxed,
   AtomicOp.casHead AtomicOrdering.release AtomicOrdering.relaxed]

/-- The atomic operations executed, in program order, by one iteration of
the teardown loop in `Drop for ConcurrentLinkedList` (`linked_list.rs:46`). -/
def dropTraversalAtomicOps : List AtomicOp :=
  [AtomicOp.loadHead AtomicOrdering.relaxed,
   AtomicOp.loadNext AtomicOrdering.relaxed,
   AtomicOp.storeHead AtomicOrdering.relaxed]

/-! ## Lemmas and claim theorems -/

theorem length_setFlagTrue (fs : List Bool) (i : Nat) :
    (setFlagTrue fs i).length = fs.length := by
  induction fs generalizing i with
  | nil => rfl
  | cons b rest ih =>
    cases i with
    | zero => rfl
    | succ j => simp [setFlagTrue, ih]

theorem flagAt_true_lt_length {fs : List Bool} {i : Nat}
    (h : flagAt fs i = true) : i < fs.length := by
  induction fs generalizing i with
  | nil => simp [flagAt] at h
  | cons b rest ih =>
    cases i with
    | zero => simp
    | succ j =>
      have := ih (i := j) h
      simp only [List.length_cons]
      omega

theorem flagAt_append_left {fs : List Bool} (gs : List Bool) {i : Nat}
    (h : i < fs.length) : flagAt (fs ++ gs) i = flagAt fs i := by
  induction fs generalizing i with
  | nil => simp at h
  | cons b rest ih =>
    cases i with
    | zero => rfl
    | succ j =>
      have hj : j < rest.length := by simpa using h
      simpa [flagAt] using ih hj

theorem flagAt_append_singleton (fs : List Bool) (b : Bool) :
    flagAt (fs ++ [b]) fs.length = b := by
  induction fs with
  | nil => rfl
  | cons c rest ih => simpa [flagAt] using ih

theorem flagAt_setFlagTrue_self {fs : List Bool} {i : Nat}
    (h : i < fs.length) : flagAt (setFlagTrue fs i) i = true := by
  induction fs generalizing i with
  | nil => simp at h
  | cons b rest ih =>
    cases i with
    | zero => rfl
    | succ j =>
      have hj : j < rest.length := by simpa using h
      simpa [setFlagTrue, flagAt] using ih hj

theorem flagAt_setFlagTrue_of_true {fs : List Bool} {i j : Nat}
    (h : flagAt fs i = true) : flagAt (setFlagTrue fs j) i = true := by
  induction fs generalizing i j with
  | nil => simp [flagAt] at h
  | cons b rest ih =>
    cases j with
    | zero =>
      cases i with
      | zero => rfl
      | succ k => simpa [setFlagTrue, flagAt] using h
    | succ j' =>
      cases i with
      | zero => simpa [setFlagTrue, flagAt] using h
      | succ k => simpa [setFlagTrue, flagAt] using ih (j := j') h

theorem teardownAux_chain {α : Type u} (heap : List (ListNode α))
    (hch : chainNext heap) :
    ∀ k, k ≤ heap.length →
      (teardownAux k ⟨heap, k⟩).1.map Prod.snd
          = ((heap.take k).map ListNode.value).reverse ∧
      (teardownAux k ⟨heap, k⟩).1.map Prod.fst
          = (List.range k).reverse.map (fun i => i + 1) ∧
      (teardownAux k ⟨heap, k⟩).2 = ⟨heap, 0⟩ := by
  intro k
  induction k with
  | zero =>
    intro _
    simp [teardownAux]
  | succ j ih =>
    intro hk
    have hj : j < heap.length := hk
    obtain ⟨n, hn⟩ : ∃ n, heap.get? j = some n := by
      rw [List.get?_eq_get hj]
      exact ⟨_, rfl⟩
    have hnext := hch j n hn
    have hn' : heap[j]? = some n := by simpa using hn
    have hstep : teardownStep (⟨heap, j + 1⟩ : LLState α)
        = some ((j + 1, n.value), ⟨heap, j⟩) := by
      simp [teardownStep, hn', hnext]
    obtain ⟨ih1, ih2, ih3⟩ := ih (Nat.le_of_succ_le hk)
    have htake : heap.take (j + 1) = heap.take j ++ [n] := by
      simp [List.take_succ, hn']
    refine ⟨?_, ?_, ?_⟩
    · simp [teardownAux, hstep, ih1, htake]
    · simp [teardownAux, hstep, ih2, List.range_succ]
    · simp [teardownAux, hstep, ih3]

theorem pushAll_cons (s : LLState α) (v : α) (vs : List α) :
    pushAll s (v :: vs) = pushAll (pushFront s v) vs := rfl

theorem pushAll_inv {α : Type u} (vs : List α) :
    ∀ s : LLState α, s.head = s.heap.length → chainNext s.heap →
      (pushAll s vs).head = (pushAll s vs).heap.length ∧
      (pushAll s vs).heap.map ListNode.value = s.heap.map ListNode.value ++ vs ∧
      chainNext (pushAll s vs).heap := by
  induction vs with
  | nil =>
    intro s h1 h2
    exact ⟨h1, by simp [pushAll], h2⟩
  | cons v rest ih =>
    intro s h1 h2
    have hhead : (pushFront s v).head = (pushFront s v).heap.length := by
      simp [pushFront]
    have hchain : chainNext (pushFront s v).heap := by
      intro i n hget
      have hget' : (s.heap ++ [(⟨v, s.head⟩ : ListNode α)]).get? i = some n := hget
      rcases Nat.lt_trichotomy i s.heap.length with hlt | heq | hgt
      · rw [List.get?_append hlt] at hget'
        exact h2 i n hget'
      · subst heq
        rw [List.get?_concat_length] at hget'
        cases hget'
        simpa using h1
      · have hlen : (s.heap ++ [(⟨v, s.head⟩ : ListNode α)]).length ≤ i := by
          simp only [List.length_append, List.length_singleton]
          omega
        rw [List.get?_len_le hlen] at hget'
        cases hget'
    obtain ⟨r1, r2, r3⟩ := ih (pushFront s v) hhead hchain
    refine ⟨by simpa [pushAll_cons] using r1, ?_, by simpa [pushAll_cons] using r3⟩
    rw [pushAll_cons, r2]
    simp [pushFront]

theorem teardown_pushAll {α : Type u} (vs : List α) :
    (teardown (pushAll LLState.empty vs)).1.map Prod.snd = vs.reverse ∧
    (teardown (pushAll LLState.empty vs)).1.map Prod.fst
        = (List.range vs.length).reverse.map (fun i => i + 1) ∧
    (teardown (pushAll LLState.empty vs)).2.head = 0 := by
  obtain ⟨h1, h2, h3⟩ :=
    pushAll_inv vs LLState.empty rfl (fun i n h => by simp [LLState.empty] at h)
  have hlen : (pushAll LLState.empty vs).heap.length = vs.length := by
    have := congrArg List.length h2
    simpa [LLState.empty] using this
  have hvals : (pushAll LLState.empty vs).heap.map ListNode.value = vs := by
    simpa [LLState.empty] using h2
  have hst : pushAll LLState.empty vs
      = ⟨(pushAll LLState.empty vs).heap, (pushAll LLState.empty vs).heap.length⟩ := by
    cases hp : pushAll LLState.empty vs with
    | mk heap head =>
      have : head = heap.length := by simpa [hp] using h1
      simp [this]
  obtain ⟨c1, c2, c3⟩ := teardownAux_chain (pushAll LLState.empty vs).heap h3
    (pushAll LLState.empty vs).heap.length (le_refl _)
  have hteardown : teardown (pushAll LLState.empty vs)
      = teardownAux (pushAll LLState.empty vs).heap.length
          ⟨(pushAll LLState.empty vs).heap, (pushAll LLState.empty vs).heap.length⟩ := by
    rw [teardown, hst]
  refine ⟨?_, ?_, ?_⟩
  · rw [hteardown, c1, List.take_length, hvals]
  · rw [hteardown, c2, hlen]
  · rw [hteardown, c3]

theorem runDrops_flags (flags : List Bool) (bs : List (ArenaBox α)) :
    (runDrops flags bs).1 = bs.foldl (fun fs b => b.mark_as_dropped fs) flags := by
  induction bs generalizing flags with
  | nil => rfl
  | cons b rest ih => simp [runDrops, ArenaBox.dropRun, ih]

theorem dropRun_filterMap (flags : List Bool) (b : ArenaBox α) :
    ((b.dropRun flags).2).filterMap toDropValue = [b.value] := by
  by_cases h : b.object_layout.size = 0 <;>
    simp [ArenaBox.dropRun, ArenaBox.dropperEvents, toDropValue, h]

theorem runDrops_filterMap (flags : List Bool) (bs : List (ArenaBox α)) :
    ((runDrops flags bs).2).filterMap toDropValue = bs.map ArenaBox.value := by
  induction bs generalizing flags with
  | nil => rfl
  | cons b rest ih =>
    simp [runDrops, List.filterMap_append, dropRun_filterMap, ih]

theorem dropRun_countP_setFlag (flags : List Bool) (b : ArenaBox α) (k : Nat) :
    ((b.dropRun flags).2).countP (isSetFlagFor k)
      = if b.flagId = k then 1 else 0 := by
  by_cases h : b.object_layout.size = 0 <;>
    by_cases hk : b.flagId = k <;>
      simp [ArenaBox.dropRun, ArenaBox.dropperEvents, isSetFlagFor,
        List.countP_cons, h, hk]

theorem runDrops_countP_setFlag (flags : List Bool) (bs : List (ArenaBox α))
    (k : Nat) :
    ((runDrops flags bs).2).countP (isSetFlagFor k)
      = bs.countP (fun b => b.flagId == k) := by
  induction bs generalizing flags with
  | nil => rfl
  | cons b rest ih =>
    by_cases hk : b.flagId = k <;>
      simp [runDrops, List.countP_append, List.countP_cons,
        dropRun_countP_setFlag, ih, hk, Nat.add_comm]

theorem dropRun_countP_dropValue (flags : List Bool) (b : ArenaBox α) :
    ((b.dropRun flags).2).countP isDropValueEv = 1 := by
  by_cases h : b.object_layout.size = 0 <;>
    simp [ArenaBox.dropRun, ArenaBox.dropperEvents, isDropValueEv, toDropValue, h]

theorem runDrops_countP_dropValue (flags : List Bool) (bs : List (ArenaBox α)) :
    ((runDrops flags bs).2).countP isDropValueEv = bs.length := by
  induction bs generalizing flags with
  | nil => rfl
  | cons b rest ih =>
    simp [runDrops, List.countP_append, dropRun_countP_dropValue, ih, Nat.add_comm]

theorem dropRun_countP_dealloc (flags : List Bool) (b : ArenaBox α) :
    ((b.dropRun flags).2).countP isDeallocEv
      = if b.object_layout.size = 0 then 0 else 1 := by
  by_cases h : b.object_layout.size = 0 <;>
    simp [ArenaBox.dropRun, ArenaBox.dropperEvents, isDeallocEv, h]

theorem runDrops_countP_dealloc (flags : List Bool) (bs : List (ArenaBox α)) :
    ((runDrops flags bs).2).countP isDeallocEv
      = bs.countP (fun b => !(b.object_layout.size == 0)) := by
  induction bs generalizing flags with
  | nil => rfl
  | cons b rest ih =>
    by_cases h : b.object_layout.size = 0 <;>
      simp [runDrops, List.countP_append, List.countP_cons,
        dropRun_countP_dealloc, ih, h, Nat.add_comm]

theorem foldl_mark_length (bs : List (ArenaBox α)) (fs : List Bool) :
    (bs.foldl (fun fs b => b.mark_as_dropped fs) fs).length = fs.length := by
  induction bs generalizing fs with
  | nil => rfl
  | cons b rest ih =>
    simp only [List.foldl_cons]
    rw [ih]
    simp [ArenaBox.mark_as_dropped, length_setFlagTrue]

theorem foldl_mark_preserve_true (bs : List (ArenaBox α)) (fs : List Bool)
    (i : Nat) (h : flagAt fs i = true) :
    flagAt (bs.foldl (fun fs b => b.mark_as_dropped fs) fs) i = true := by
  induction bs generalizing fs with
  | nil => exact h
  | cons b rest ih =>
    exact ih _ (flagAt_setFlagTrue_of_true h)

theorem foldl_mark_mem_true {bs : List (ArenaBox α)} {b : ArenaBox α}
    (hmem : b ∈ bs) (fs : List Bool) (hlt : b.flagId < fs.length) :
    flagAt (bs.foldl (fun fs b => b.mark_as_dropped fs) fs) b.flagId = true := by
  induction bs generalizing fs with
  | nil => cases hmem
  | cons c rest ih =>
    rcases List.mem_cons.mp hmem with heq | htail
    · subst heq
      exact foldl_mark_preserve_true rest _ _ (flagAt_setFlagTrue_self hlt)
    · refine ih htail _ ?_
      simpa [ArenaBox.mark_as_dropped, length_setFlagTrue] using hlt

theorem mkBoxes_map_value (flag0 addr0 : Nat) (es : List (α × Layout)) :
    (mkBoxes flag0 addr0 es).map ArenaBox.value = es.map Prod.fst := by
  induction es generalizing flag0 addr0 with
  | nil => rfl
  | cons e rest ih =>
    cases e with
    | mk v l => simp [mkBoxes, ih]

theorem mkBoxes_length (flag0 addr0 : Nat) (es : List (α × Layout)) :
    (mkBoxes flag0 addr0 es).length = es.length := by
  induction es generalizing flag0 addr0 with
  | nil => rfl
  | cons e rest ih =>
    cases e with
    | mk v l => simp [mkBoxes, ih]

theorem mkBoxes_flagId_mem {flag0 addr0 : Nat} {es : List (α × Layout)}
    {b : ArenaBox α} (h : b ∈ mkBoxes flag0 addr0 es) :
    flag0 ≤ b.flagId ∧ b.flagId < flag0 + es.length := by
  induction es generalizing flag0 addr0 with
  | nil => cases h
  | cons e rest ih =>
    cases e with
    | mk v l =>
      rcases List.mem_cons.mp h with heq | htail
      · subst heq
        simp
      · have := ih htail
        simp only [List.length_cons]
        omega

theorem mkBoxes_countP_flagId (es : List (α × Layout)) :
    ∀ flag0 addr0 k : Nat,
      (mkBoxes flag0 addr0 es).countP (fun b => b.flagId == k)
        = if flag0 ≤ k ∧ k < flag0 + es.length then 1 else 0 := by
  induction es with
  | nil =>
    intro flag0 addr0 k
    simp only [mkBoxes, List.countP_nil, List.length_nil]
    rw [if_neg (by omega)]
  | cons e rest ih =>
    intro flag0 addr0 k
    cases e with
    | mk v l =>
      by_cases hk : flag0 = k
      · subst hk
        have hrest := ih (flag0 + 1) (if l.size = 0 then addr0 else addr0 + 1) flag0
        have : ¬(flag0 + 1 ≤ flag0 ∧ flag0 < flag0 + 1 + rest.length) := by omega
        simp only [mkBoxes, List.countP_cons, hrest, this, if_false]
        simp
      · have hrest := ih (flag0 + 1) (if l.size = 0 then addr0 else addr0 + 1) k
        simp only [mkBoxes, List.countP_cons, hrest]
        by_cases hin : flag0 + 1 ≤ k ∧ k < flag0 + 1 + rest.length
        · have hin' : flag0 ≤ k ∧ k < flag0 + (rest.length + 1) := by omega
          simp [hin, hin', hk]
        · have hin' : ¬(flag0 ≤ k ∧ k < flag0 + (rest.length + 1)) := by omega
          simp [hin, hin', hk]

theorem mkBoxes_countP_size (flag0 addr0 : Nat) (es : List (α × Layout)) :
    (mkBoxes flag0 addr0 es).countP (fun b => !(b.object_layout.size == 0))
      = es.countP (fun e => !(e.2.size == 0)) := by
  induction es generalizing flag0 addr0 with
  | nil => rfl
  | cons e rest ih =>
    cases e with
    | mk v l => simp [mkBoxes, List.countP_cons, ih]

theorem allocAll_cons_fst (s : Arena α) (v : α) (l : Layout)
    (rest : List (α × Layout)) :
    (allocAll s ((v, l) :: rest)).1 = (allocAll (Arena.alloc s v l).2.1 rest).1 := rfl

theorem allocAll_cons_snd (s : Arena α) (v : α) (l : Layout)
    (rest : List (α × Layout)) :
    (allocAll s ((v, l) :: rest)).2
      = (Arena.alloc s v l).1 :: (allocAll (Arena.alloc s v l).2.1 rest).2 := rfl

theorem alloc_step (s : Arena α) (v : α) (l : Layout) :
    (Arena.alloc s v l).1 = ⟨v, s.flags.length⟩ ∧
    (Arena.alloc s v l).2.1
      = ⟨s.flags ++ [false],
         pushFront s.objects
           ⟨if l.size = 0 then danglingAddr l else s.nextAddr, l, v, s.flags.length⟩,
         if l.size = 0 then s.nextAddr else s.nextAddr + 1⟩ := by
  by_cases hl : l.size = 0 <;> simp [Arena.alloc, ArenaBox.new, hl]

theorem allocAll_spec (es : List (α × Layout)) :
    ∀ s : Arena α,
      (allocAll s es).1.flags = s.flags ++ List.replicate es.length false ∧
      (allocAll s es).1.objects
        = pushAll s.objects (mkBoxes s.flags.length s.nextAddr es) ∧
      (allocAll s es).2
        = (mkBoxes s.flags.length s.nextAddr es).map (fun b => ⟨b.value, b.flagId⟩) := by
  induction es with
  | nil => intro s; simp [allocAll, mkBoxes, pushAll]
  | cons e rest ih =>
    intro s
    cases e with
    | mk v l =>
      obtain ⟨h1, h2⟩ := alloc_step s v l
      obtain ⟨ih1, ih2, ih3⟩ := ih (Arena.alloc s v l).2.1
      rw [h2] at ih1 ih2 ih3
      refine ⟨?_, ?_, ?_⟩
      · rw [allocAll_cons_fst, h2, ih1]
        simp [List.replicate_succ]
      · rw [allocAll_cons_fst, h2, ih2]
        simp [mkBoxes, pushAll_cons]
      · rw [allocAll_cons_snd, h1, h2, ih3]
        simp [mkBoxes]

theorem allocAll_new_flags (es : List (α × Layout)) :
    (allocAll (Arena.new (α := α)) es).1.flags = List.replicate es.length false := by
  simpa [Arena.new] using (allocAll_spec es (Arena.new (α := α))).1

theorem allocAll_new_handles (es : List (α × Layout)) :
    (allocAll (Arena.new (α := α)) es).2
      = (mkBoxes 0 1 es).map (fun b => ⟨b.value, b.flagId⟩) := by
  simpa [Arena.new, LLState.empty] using (allocAll_spec es (Arena.new (α := α))).2.2

theorem allocAll_new_teardownBoxes (es : List (α × Layout)) :
    Arena.teardownBoxes (allocAll (Arena.new (α := α)) es).1
      = (mkBoxes 0 1 es).reverse := by
  have hobj : (allocAll (Arena.new (α := α)) es).1.objects
      = pushAll LLState.empty (mkBoxes 0 1 es) := by
    simpa [Arena.new] using (allocAll_spec es (Arena.new (α := α))).2.1
  rw [Arena.teardownBoxes, hobj]
  exact (teardown_pushAll (mkBoxes 0 1 es)).1

theorem FlagStep_monotone {fs fs' : List Bool} (h : FlagStep fs fs') (i : Nat)
    (ht : flagAt fs i = true) : flagAt fs' i = true := by
  cases h with
  | allocStep =>
    rw [flagAt_append_left _ (flagAt_true_lt_length ht)]
    exact ht
  | markStep => exact flagAt_setFlagTrue_of_true ht
  | readStep => exact ht

theorem FlagStep_rtc_monotone {fs fs' : List Bool}
    (h : Relation.ReflTransGen FlagStep fs fs') (i : Nat)
    (ht : flagAt fs i = true) : flagAt fs' i = true := by
  induction h with
  | refl => exact ht
  | tail _ hbc ih => exact FlagStep_monotone hbc i ih

/-- **C1**: for every handle (mutable or immutable) and every state of its
shared liveness flag, a checked access via `get()` / `get_mut()` panics
(with the `assert!` failure message) exactly when the flag is true, and
returns the stored value exactly when the flag is false; it never silently
returns a value while the flag is true. -/
theorem C1_checked_access_panics_iff_dropped (α : Type) (flags : List Bool)
    (m : AllocMut α) (r : AllocRef α) :
    (m.dropped flags = true ↔ m.get flags = AccessResult.panicked panicMsg) ∧
    (m.dropped flags = false ↔ m.get flags = AccessResult.ok m.value) ∧
    (m.dropped flags = true ↔ m.get_mut flags = AccessResult.panicked panicMsg) ∧
    (m.dropped flags = false ↔ m.get_mut flags = AccessResult.ok m.value) ∧
    (r.dropped flags = true ↔ r.get flags = AccessResult.panicked panicMsg) ∧
    (r.dropped flags = false ↔ r.get flags = AccessResult.ok r.value) := by
  cases h : m.dropped flags <;> cases h2 : r.dropped flags <;>
    simp [AllocMut.get, AllocMut.get_mut, AllocRef.get,
      AllocMut.ensure_not_dropped, AllocRef.ensure_not_dropped, h, h2]

/-- Witness for C1 at a concrete flag state and handle. -/
theorem C1_checked_access_witness :
    AllocMut.get [true] (⟨0, 0⟩ : AllocMut Nat) = AccessResult.panicked panicMsg ∧
    AllocMut.get [false] (⟨0, 0⟩ : AllocMut Nat) = AccessResult.ok 0 ∧
    AllocRef.get [true] (⟨7, 0⟩ : AllocRef Nat) = AccessResult.panicked panicMsg := by
  refine ⟨?_, ?_, ?_⟩
  · exact (C1_checked_access_panics_iff_dropped Nat [true] ⟨0, 0⟩ ⟨7, 0⟩).1.mp rfl
  · exact (C1_checked_access_panics_iff_dropped Nat [false] ⟨0, 0⟩ ⟨7, 0⟩).2.1.mp rfl
  · exact
      (C1_checked_access_panics_iff_dropped Nat [true] ⟨0, 0⟩ ⟨7, 0⟩).2.2.2.2.1.mp rfl

/-- **C5**: `alloc(v)` on a live arena followed immediately by `get()` on
the returned mutable handle returns `v` (the fresh flag is false). -/
theorem C5_alloc_get_roundtrip (α : Type) (s : Arena α) (v : α) (l : Layout) :
    AllocMut.get (Arena.alloc s v l).2.1.flags (Arena.alloc s v l).1
      = AccessResult.ok v := by
  obtain ⟨h1, h2⟩ := alloc_step s v l
  rw [h1, h2]
  simp [AllocMut.get, AllocMut.ensure_not_dropped, AllocMut.dropped,
    flagAt_append_singleton]

/-- **C10**: for every list of `N` inserted records, the teardown loop of
the concurrent store terminates after exactly `N` destroying iterations,
destroys the node addresses `N, N-1, …, 1` — each node exactly once, none
skipped — and leaves the head reference null. -/
theorem C10_teardown_complete (α : Type) (vs : List α) :
    (teardown (pushAll LLState.empty vs)).1.length = vs.length ∧
    (teardown (pushAll LLState.empty vs)).1.map Prod.snd = vs.reverse ∧
    (teardown (pushAll LLState.empty vs)).1.map Prod.fst
        = (List.range vs.length).reverse.map (fun i => i + 1) ∧
    ((teardown (pushAll LLState.empty vs)).1.map Prod.fst).Nodup ∧
    (teardown (pushAll LLState.empty vs)).2.head = 0 := by
  obtain ⟨h1, h2, h3⟩ := teardown_pushAll vs
  refine ⟨?_, h1, h2, ?_, h3⟩
  · have := congrArg List.length h2
    simpa using this
  · rw [h2]
    refine List.Nodup.map (fun a b hab => by omega) ?_
    exact (List.nodup_reverse).mpr (List.nodup_range _)

/-- **C8, counterexample**: the claim says every transparent use, including
formatting, funnels through the checked accessor for both handle types.
It is false for immutable handles: `Debug for AllocRef` (`lib.rs:381`) and
`Display for AllocRef` (`lib.rs:398`) format `self.value` directly. With
the shared flag already true, formatting an `AllocRef` silently yields the
value instead of panicking. -/
theorem C8_transparent_access_counterexample :
    AllocRef.dropped [true] (⟨5, 0⟩ : AllocRef Nat) = true ∧
    AllocRef.fmtDebug [true] (⟨5, 0⟩ : AllocRef Nat) = AccessResult.ok 5 ∧
    AllocRef.fmtDisplay [true] (⟨5, 0⟩ : AllocRef Nat) = AccessResult.ok 5 ∧
    AllocRef.fmtDebug [true] (⟨5, 0⟩ : AllocRef Nat)
        ≠ AccessResult.panicked panicMsg := by
  refine ⟨rfl, rfl, rfl, ?_⟩
  intro h
  cases h

/-- **C8, amended**: dereferencing, `AsRef`/`Borrow` (and their mutable
variants) go through the checked accessor for both handle types, and so do
`Debug`/`Display` formatting of a mutable handle — when the flag is true
they all panic. However, `Debug` and `Display` formatting of an immutable
handle read the stored value directly, bypassing the check. -/
theorem C8_transparent_access_amended (α : Type) (flags : List Bool)
    (m : AllocMut α) (r : AllocRef α)
    (hm : m.dropped flags = true) (hr : r.dropped flags = true) :
    m.deref flags = AccessResult.panicked panicMsg ∧
    m.deref_mut flags = AccessResult.panicked panicMsg ∧
    m.as_ref flags = AccessResult.panicked panicMsg ∧
    m.as_mut flags = AccessResult.panicked panicMsg ∧
    m.borrow flags = AccessResult.panicked panicMsg ∧
    m.borrow_mut flags = AccessResult.panicked panicMsg ∧
    m.fmtDebug flags = AccessResult.panicked panicMsg ∧
    m.fmtDisplay flags = AccessResult.panicked panicMsg ∧
    r.deref flags = AccessResult.panicked panicMsg ∧
    r.as_ref flags = AccessResult.panicked panicMsg ∧
    r.borrow flags = AccessResult.panicked panicMsg ∧
    r.fmtDebug flags = AccessResult.ok r.value ∧
    r.fmtDisplay flags = AccessResult.ok r.value := by
  simp [AllocMut.deref, AllocMut.deref_mut, AllocMut.as_ref, AllocMut.as_mut,
    AllocMut.borrow, AllocMut.borrow_mut, AllocMut.fmtDebug, AllocMut.fmtDisplay,
    AllocRef.deref, AllocRef.as_ref, AllocRef.borrow, AllocRef.fmtDebug,
    AllocRef.fmtDisplay, AllocMut.get, AllocMut.get_mut, AllocRef.get,
    AllocMut.ensure_not_dropped, AllocRef.ensure_not_dropped, hm, hr]

/-- Witness for the amended C8 at a concrete dropped handle pair. -/
theorem C8_transparent_access_amended_witness :
    AllocMut.deref [true] (⟨3, 0⟩ : AllocMut Nat) = AccessResult.panicked panicMsg ∧
    AllocRef.fmtDebug [true] (⟨3, 0⟩ : AllocRef Nat) = AccessResult.ok 3 :=
  ⟨(C8_transparent_access_amended Nat [true] ⟨3, 0⟩ ⟨3, 0⟩ rfl rfl).1,
   (C8_transparent_access_amended Nat [true] ⟨3, 0⟩ ⟨3, 0⟩ rfl rfl).2.2.2.2.2.2.2.2.2.2.2.1⟩

/-- **C9, counterexample**: the claim says any traversal reading published
nodes uses acquire-consistent semantics. In `Drop for ConcurrentLinkedList`
(`linked_list.rs:51-55`) both the `head` load and the `next` load use
`Ordering::Relaxed`, not acquire. -/
theorem C9_ordering_counterexample :
    dropTraversalAtomicOps
        = [AtomicOp.loadHead AtomicOrdering.relaxed,
           AtomicOp.loadNext AtomicOrdering.relaxed,
           AtomicOp.storeHead AtomicOrdering.relaxed] ∧
    AtomicOrdering.relaxed ≠ AtomicOrdering.acquire := by
  refine ⟨rfl, ?_⟩
  intro h
  cases h

/-- **C9, amended**: in `push_front` the new node's successor link is
written (program order) before the node is published by the head
compare-exchange, and that publishing compare-exchange uses release
semantics on success (relaxed on failure); the published head indeed
references the fully linked node. However, the teardown traversal in
`Drop` reads the head and the successor links with relaxed ordering, not
acquire — it runs single-threaded under exclusive ownership (`&mut self`),
after external synchronization with all insertions. -/
theorem C9_ordering_amended (α : Type) :
    pushFrontAtomicOps
        = [AtomicOp.loadHead AtomicOrdering.relaxed,
           AtomicOp.storeNext AtomicOrdering.relaxed,
           AtomicOp.casHead AtomicOrdering.release AtomicOrdering.relaxed] ∧
    List.indexOf (AtomicOp.storeNext AtomicOrdering.relaxed) pushFrontAtomicOps
      < List.indexOf
          (AtomicOp.casHead AtomicOrdering.release AtomicOrdering.relaxed)
          pushFrontAtomicOps ∧
    dropTraversalAtomicOps
        = [AtomicOp.loadHead AtomicOrdering.relaxed,
           AtomicOp.loadNext AtomicOrdering.relaxed,
           AtomicOp.storeHead AtomicOrdering.relaxed] ∧
    (∀ (s : LLState α) (v : α),
      (pushFront s v).head = s.heap.length + 1 ∧
      (pushFront s v).heap.get? s.heap.length = some ⟨v, s.head⟩) := by
  refine ⟨rfl, by decide, rfl, ?_⟩
  intro s v
  exact ⟨rfl, List.get?_concat_length _ _⟩

/-- **C4**: destroying the arena after sequential allocations `a1 … aN`
runs their destruction logic (`drop_in_place` events) in exactly the
reverse order `aN … a1`. -/
theorem C4_lifo_destruction (α : Type) (entries : List (α × Layout)) :
    ((allocAll (Arena.new (α := α)) entries).1.dropRun).2.filterMap toDropValue
      = (entries.map Prod.fst).reverse := by
  rw [Arena.dropRun, runDrops_filterMap, allocAll_new_teardownBoxes,
    List.map_reverse, mkBoxes_map_value]

/-- **C2**: exactly one liveness flag is created per allocation,
initialized to false and shared by the storage record and the returned
handle (and preserved by the mutable-to-immutable conversion and by
cloning); no flag transition of any operation resets a true flag; and in a
full teardown the `Cell::set(true)` write for each allocation's flag
happens exactly once. -/
theorem C2_flag_lifecycle (α : Type) :
    (∀ (s : Arena α) (v : α) (l : Layout),
      (Arena.alloc s v l).2.1.flags = s.flags ++ [false] ∧
      (Arena.alloc s v l).1.droppedFlag = s.flags.length ∧
      (ArenaBox.new s v l).1.flagId = (Arena.alloc s v l).1.droppedFlag ∧
      (Arena.alloc s v l).2.1.objects
          = pushFront s.objects (ArenaBox.new s v l).1 ∧
      AllocMut.dropped (Arena.alloc s v l).2.1.flags (Arena.alloc s v l).1
          = false) ∧
    (∀ m : AllocMut α, (AllocRef.fromMut m).droppedFlag = m.droppedFlag) ∧
    (∀ r : AllocRef α, (AllocRef.clone r).droppedFlag = r.droppedFlag) ∧
    (∀ (fs fs' : List Bool), Relation.ReflTransGen FlagStep fs fs' →
      ∀ i, flagAt fs i = true → flagAt fs' i = true) ∧
    (∀ (entries : List (α × Layout)) (k : Nat), k < entries.length →
      ((allocAll (Arena.new (α := α)) entries).1.dropRun).2.countP (isSetFlagFor k)
        = 1) := by
  refine ⟨?_, fun _ => rfl, fun _ => rfl, ?_, ?_⟩
  · intro s v l
    have hbox : (ArenaBox.new s v l).1.flagId = s.flags.length := by
      by_cases hl : l.size = 0 <;> simp [ArenaBox.new, hl]
    have hobjs : (ArenaBox.new s v l).2.1.objects = s.objects := by
      by_cases hl : l.size = 0 <;> simp [ArenaBox.new, hl]
    obtain ⟨h1, h2⟩ := alloc_step s v l
    refine ⟨by rw [h2], by rw [h1], by rw [hbox, h1], ?_, ?_⟩
    · simp only [Arena.alloc]
      rw [hobjs]
    · rw [h1, h2]
      simp [AllocMut.dropped, flagAt_append_singleton]
  · exact fun fs fs' h i ht => FlagStep_rtc_monotone h i ht
  · intro entries k hk
    rw [Arena.dropRun, runDrops_countP_setFlag, allocAll_new_teardownBoxes,
      List.countP_reverse, mkBoxes_countP_flagId]
    rw [if_pos ⟨Nat.zero_le _, by omega⟩]

/-- Witness for C2: a concrete two-allocation run in which the first
allocation's `Cell::set(true)` happens exactly once during teardown, and a
concrete mark step that preserves an already-true flag. -/
theorem C2_flag_lifecycle_witness :
    ((allocAll (Arena.new (α := Nat)) [(5, ⟨4, 4⟩), (7, ⟨4, 4⟩)]).1.dropRun).2.countP
        (isSetFlagFor 0) = 1 ∧
    flagAt (setFlagTrue [true, false] 1) 0 = true :=
  ⟨(C2_flag_lifecycle Nat).2.2.2.2 [(5, ⟨4, 4⟩), (7, ⟨4, 4⟩)] 0 (by decide),
   (C2_flag_lifecycle Nat).2.2.2.1 [true, false] (setFlagTrue [true, false] 1)
     (Relation.ReflTransGen.single (FlagStep.markStep _ 1)) 0 rfl⟩

/-- **C3**: when a storage record is destroyed, its liveness flag is set
strictly before its finalizer's destructor logic (the flag-set event
precedes the `drop_in_place` event in every record's drop trace); hence
during teardown, a checked access performed while destroying the `k`-th
record to any record destroyed earlier observes a true flag and panics. -/
theorem C3_flag_set_before_finalizer (α : Type) :
    (∀ (flags : List Bool) (b : ArenaBox α), ∃ rest,
        (b.dropRun flags).2
          = MemEvent.setFlag b.flagId :: MemEvent.dropValue b.value :: rest) ∧
    (∀ (entries : List (α × Layout)) (k j : Nat) (bj bk : ArenaBox α),
      j < k →
      (Arena.teardownBoxes (allocAll (Arena.new (α := α)) entries).1).get? j
          = some bj →
      (Arena.teardownBoxes (allocAll (Arena.new (α := α)) entries).1).get? k
          = some bk →
      AllocMut.get
          (flagsAtDropper (allocAll (Arena.new (α := α)) entries).1.flags
            (Arena.teardownBoxes (allocAll (Arena.new (α := α)) entries).1) k)
          ⟨bj.value, bj.flagId⟩
        = AccessResult.panicked panicMsg) := by
  constructor
  · intro flags b
    exact ⟨_, rfl⟩
  · intro entries k j bj bk hjk hj hk
    have hmem_take :
        bj ∈ (Arena.teardownBoxes (allocAll (Arena.new (α := α)) entries).1).take
              (k + 1) := by
      refine List.get?_mem (n := j) (a := bj) ?_
      rw [List.get?_take (show j < k + 1 by omega)]
      exact hj
    have hmem : bj ∈ mkBoxes 0 1 entries := by
      have h1 := List.get?_mem hj
      rw [allocAll_new_teardownBoxes] at h1
      exact List.mem_reverse.mp h1
    have hlt : bj.flagId < ((allocAll (Arena.new (α := α)) entries).1.flags).length := by
      rw [allocAll_new_flags]
      have := mkBoxes_flagId_mem hmem
      simpa using this.2
    have hflag :
        flagAt
          (flagsAtDropper (allocAll (Arena.new (α := α)) entries).1.flags
            (Arena.teardownBoxes (allocAll (Arena.new (α := α)) entries).1) k)
          bj.flagId = true := by
      rw [flagsAtDropper]
      exact foldl_mark_mem_true hmem_take _ hlt
    simp [AllocMut.get, AllocMut.ensure_not_dropped, AllocMut.dropped, hflag]

/-- Witness for C3: two allocations; during destruction of the second
teardown record (the first-allocated value), a checked access to the
record destroyed before it panics. -/
theorem C3_flag_set_witness :
    AllocMut.get
        (flagsAtDropper
          (allocAll (Arena.new (α := Nat)) [(10, ⟨4, 4⟩), (20, ⟨4, 4⟩)]).1.flags
          (Arena.teardownBoxes
            (allocAll (Arena.new (α := Nat)) [(10, ⟨4, 4⟩), (20, ⟨4, 4⟩)]).1) 1)
        ⟨20, 1⟩
      = AccessResult.panicked panicMsg := by
  exact (C3_flag_set_before_finalizer Nat).2 [(10, ⟨4, 4⟩), (20, ⟨4, 4⟩)] 1 0
    ⟨2, ⟨4, 4⟩, 20, 1⟩ ⟨1, ⟨4, 4⟩, 10, 0⟩ (by decide) (by decide) (by decide)

/-- **C6**: a zero-sized allocation reserves no memory and stores the
non-dereferenceable placeholder address, and its finalizer runs the
destructor with no memory release; a non-zero-sized allocation reserves
memory and its finalizer both runs the destructor and releases the
memory. Over a whole teardown there is exactly one destructor event per
allocation and one release event per non-zero-sized allocation. -/
theorem C6_zero_sized_allocation (α : Type) :
    (∀ (s : Arena α) (v : α) (l : Layout), l.size = 0 →
      (ArenaBox.new s v l).2.2 = [] ∧
      (ArenaBox.new s v l).1.object = danglingAddr l ∧
      (ArenaBox.new s v l).1.dropperEvents = [MemEvent.dropValue v]) ∧
    (∀ (s : Arena α) (v : α) (l : Layout), l.size ≠ 0 →
      (ArenaBox.new s v l).2.2 = [MemEvent.allocMem s.nextAddr l] ∧
      (ArenaBox.new s v l).1.dropperEvents
        = [MemEvent.dropValue v, MemEvent.deallocMem s.nextAddr l]) ∧
    (∀ entries : List (α × Layout),
      ((allocAll (Arena.new (α := α)) entries).1.dropRun).2.countP isDropValueEv
        = entries.length ∧
      ((allocAll (Arena.new (α := α)) entries).1.dropRun).2.countP isDeallocEv
        = entries.countP (fun e => !(e.2.size == 0))) := by
  refine ⟨?_, ?_, ?_⟩
  · intro s v l hl
    refine ⟨?_, ?_, ?_⟩ <;> simp [ArenaBox.new, hl, ArenaBox.dropperEvents]
  · intro s v l hl
    refine ⟨?_, ?_⟩ <;> simp [ArenaBox.new, hl, ArenaBox.dropperEvents]
  · intro entries
    constructor
    · rw [Arena.dropRun, runDrops_countP_dropValue, allocAll_new_teardownBoxes]
      simp [mkBoxes_length]
    · rw [Arena.dropRun, runDrops_countP_dealloc, allocAll_new_teardownBoxes,
        List.countP_reverse, mkBoxes_countP_size]

/-- Witness for C6 at a zero-sized and a non-zero-sized layout. -/
theorem C6_zero_sized_allocation_witness :
    (ArenaBox.new (Arena.new (α := Nat)) 0 ⟨0, 1⟩).2.2 = [] ∧
    (ArenaBox.new (Arena.new (α := Nat)) 0 ⟨0, 1⟩).1.object = 1 ∧
    (ArenaBox.new (Arena.new (α := Nat)) 0 ⟨4, 4⟩).2.2
        = [MemEvent.allocMem 1 ⟨4, 4⟩] := by
  refine ⟨((C6_zero_sized_allocation Nat).1 Arena.new 0 ⟨0, 1⟩ rfl).1, ?_, ?_⟩
  · have := ((C6_zero_sized_allocation Nat).1 Arena.new 0 ⟨0, 1⟩ rfl).2.1
    simpa [danglingAddr] using this
  · have := ((C6_zero_sized_allocation Nat).2.1 Arena.new 0 ⟨4, 4⟩ (by decide)).1
    simpa [Arena.new] using this

/-- **C7**: `dropped()` on either handle type returns the current value of
the shared liveness flag — it is a pure, total read that cannot panic —
and after the arena's teardown it returns true for every handle the arena
issued (including the immutable handle converted from a mutable one). -/
theorem C7_dropped_total_and_true_after_teardown (α : Type) :
    (∀ (flags : List Bool) (m : AllocMut α),
        m.dropped flags = flagAt flags m.droppedFlag) ∧
    (∀ (flags : List Bool) (r : AllocRef α),
        r.dropped flags = flagAt flags r.droppedFlag) ∧
    (∀ (entries : List (α × Layout)) (m : AllocMut α),
      m ∈ (allocAll (Arena.new (α := α)) entries).2 →
      AllocMut.dropped ((allocAll (Arena.new (α := α)) entries).1.dropRun).1 m
          = true ∧
      AllocRef.dropped ((allocAll (Arena.new (α := α)) entries).1.dropRun).1
          (AllocRef.fromMut m) = true) := by
  refine ⟨fun _ _ => rfl, fun _ _ => rfl, ?_⟩
  intro entries m hm
  rw [allocAll_new_handles] at hm
  obtain ⟨b, hb, rfl⟩ := List.mem_map.mp hm
  have hfin :
      flagAt ((allocAll (Arena.new (α := α)) entries).1.dropRun).1 b.flagId
        = true := by
    rw [Arena.dropRun, runDrops_flags, allocAll_new_teardownBoxes,
      allocAll_new_flags]
    refine foldl_mark_mem_true (List.mem_reverse.mpr hb) _ ?_
    have := mkBoxes_flagId_mem hb
    simpa using this.2
  exact ⟨hfin, hfin⟩

/-- Witness for C7: after tearing down a one-allocation arena, `dropped()`
on the issued handle returns true. -/
theorem C7_dropped_witness :
    AllocMut.dropped
        ((allocAll (Arena.new (α := Nat)) [(5, ⟨4, 4⟩)]).1.dropRun).1 ⟨5, 0⟩
      = true := by
  have hm : (⟨5, 0⟩ : AllocMut Nat)
      ∈ (allocAll (Arena.new (α := Nat)) [(5, ⟨4, 4⟩)]).2 := by decide
  exact ((C7_dropped_total_and_true_after_teardown Nat).2.2 [(5, ⟨4, 4⟩)]
    ⟨5, 0⟩ hm).1

end ErasedTypeArena
